import Mathlib

/-!
Verification of the file-attachment versioning protocol of this repository.

The embedding models the `FileAttachments` component: the catalog table
`file_attachments` is a list of records, the blob store is a list of paths,
and the three operations (`handleFileUpload`, `handleDelete`, `onRestore`)
are state transformers.  External requests (store upload/remove, catalog
insert/update/delete) may fail; each operation takes explicit success flags
for its fallible external calls, and a failing call leaves the external
state untouched, exactly as an errored request does.  The component state
`attachments` is modelled as the freshly fetched list of latest records of
the task (the component refetches after every operation, and the actor model
is single-threaded).  Database `order by ... descending` results are
modelled by an executable insertion sort on the requested key.
-/

/-- A row of the `file_attachments` table (interface `FileAttachment`). -/
structure FileAttachment where
  id : Nat
  task_id : String
  file_name : String
  file_path : String
  file_type : String
  file_size : Nat
  version : Nat
  is_latest : Bool
  uploaded_by : Option String
  created_at : Nat
deriving DecidableEq, Repr

/-- `ALLOWED_FILE_TYPES` from the source: the MIME allow-list. -/
def ALLOWED_FILE_TYPES : List String :=
  ["image/jpeg", "image/png", "image/gif", "image/webp",
   "application/pdf",
   "application/vnd.openxmlformats-officedocument.wordprocessingml.document",
   "application/vnd.openxmlformats-officedocument.spreadsheetml.sheet",
   "application/msword",
   "application/vnd.ms-excel",
   "text/plain", "text/csv"]

/-- `MAX_FILE_SIZE` from the source: 10 MB. -/
def MAX_FILE_SIZE : Nat := 10 * 1024 * 1024

/-- The character class `[a-zA-Z0-9._-]` of the sanitizer's regex. -/
def isSafeChar (c : Char) : Bool :=
  c.isAlphanum || c == '.' || c == '_' || c == '-'

/-- `sanitizeFilename`: replace every character outside `[a-zA-Z0-9._-]`
with an underscore, then truncate to 255 characters. -/
def sanitizeFilename (name : String) : String :=
  String.mk (((name.data).map (fun c => if isSafeChar c then c else '_')).take 255)

/-- Insert a record into a list sorted descending by `key`. -/
def insertByKeyDesc (key : FileAttachment → Nat) (a : FileAttachment) :
    List FileAttachment → List FileAttachment
  | [] => [a]
  | b :: t => if key b ≤ key a then a :: b :: t else b :: insertByKeyDesc key a t

/-- Sort a list descending by `key` (models `order(key, descending)`). -/
def sortByKeyDesc (key : FileAttachment → Nat) : List FileAttachment → List FileAttachment
  | [] => []
  | a :: t => insertByKeyDesc key a (sortByKeyDesc key t)

/-- Membership in the (taskId, fileName) pair, as the catalog filters it. -/
def inPair (taskId fileName : String) (a : FileAttachment) : Bool :=
  a.task_id == taskId && a.file_name == fileName

/-- All catalog records of the (taskId, fileName) pair, in catalog order. -/
def pairRecords (taskId fileName : String) (cat : List FileAttachment) :
    List FileAttachment :=
  cat.filter (inPair taskId fileName)

/-- `fetchAttachments`: the latest records of the task, newest first. -/
def fetchAttachments (taskId : String) (cat : List FileAttachment) :
    List FileAttachment :=
  sortByKeyDesc (fun a => a.created_at)
    (cat.filter (fun a => a.task_id == taskId && a.is_latest))

/-- `getVersionHistory`: all records of the pair, highest version first. -/
def getVersionHistory (taskId fileName : String) (cat : List FileAttachment) :
    List FileAttachment :=
  sortByKeyDesc (fun a => a.version) (pairRecords taskId fileName cat)

/-- The catalog update `set is_latest = false where task_id = taskId and
file_name = fileName` (the demote step of Upload and Restore). -/
def demotePair (taskId fileName : String) (cat : List FileAttachment) :
    List FileAttachment :=
  cat.map (fun a => if inPair taskId fileName a then { a with is_latest := false } else a)

/-- The catalog update `set is_latest = true where id = i` (the promote step
of Restore and of Delete's repointing). -/
def promoteById (i : Nat) (cat : List FileAttachment) : List FileAttachment :=
  cat.map (fun a => if a.id == i then { a with is_latest := true } else a)

/-- The catalog `delete where id = i`. -/
def deleteById (i : Nat) (cat : List FileAttachment) : List FileAttachment :=
  cat.filter (fun a => !(a.id == i))

/-- The world the component acts on: the catalog table, the set of stored
blob paths, the next record id the database will assign, and a logical
clock for `created_at`. -/
structure AppState where
  catalog : List FileAttachment
  store : List String
  nextId : Nat
  now : Nat
deriving DecidableEq, Repr

/-- One file of an upload batch: its name, MIME type and byte size. -/
structure UploadFile where
  name : String
  mime : String
  size : Nat
deriving DecidableEq, Repr

/-- The per-file outcome of `handleFileUpload`, as the source reports it
via toasts and early `continue`s. -/
inductive UploadResult where
  | invalidType : UploadResult
  | tooLarge : UploadResult
  | storeFailed : UploadResult
  | insertFailed : UploadResult
  | uploaded : Nat → UploadResult
deriving DecidableEq, Repr

/-- `handleFileUpload` for a single file.  `uuid` is the value of
`crypto.randomUUID()`; `demoteOk`, `storeOk` and `insertOk` tell whether the
demote update, the storage upload and the catalog insert succeed.  The
demote update's result is never read by the source, so when it fails the
catalog is left unchanged and the operation continues; the storage upload
and the insert are error-checked (`continue` on failure).  Steps, in source
order: validate MIME type, validate size, sanitize the name, detect an
existing file among the fetched latest records, compute the next version
from the version history, demote the pair, upload the blob, insert the new
latest record. -/
def handleFileUpload (taskId uploaderId : String) (file : UploadFile)
    (uuid : String) (demoteOk storeOk insertOk : Bool) (s : AppState) :
    AppState × UploadResult :=
  if (ALLOWED_FILE_TYPES.contains file.mime) = false then (s, UploadResult.invalidType)
  else if MAX_FILE_SIZE < file.size then (s, UploadResult.tooLarge)
  else
    let sanitizedName := sanitizeFilename file.name
    let attachments := fetchAttachments taskId s.catalog
    let existingFile := attachments.any (fun a => a.file_name == file.name)
    let newVersion :=
      if existingFile then
        match getVersionHistory taskId file.name s.catalog with
        | [] => 1
        | v :: _ => v.version + 1
      else 1
    let cat1 :=
      if existingFile then
        (if demoteOk then demotePair taskId file.name s.catalog else s.catalog)
      else s.catalog
    let filePath := taskId ++ "/" ++ uuid ++ "-" ++ sanitizedName
    if storeOk = false then ({ s with catalog := cat1 }, UploadResult.storeFailed)
    else
      let store1 := s.store ++ [filePath]
      if insertOk = false then
        ({ s with catalog := cat1, store := store1 }, UploadResult.insertFailed)
      else
        ({ catalog := cat1 ++
             [{ id := s.nextId, task_id := taskId, file_name := file.name,
                file_path := filePath, file_type := file.mime,
                file_size := file.size, version := newVersion,
                is_latest := true, uploaded_by := some uploaderId,
                created_at := s.now }],
           store := store1, nextId := s.nextId + 1, now := s.now + 1 },
         UploadResult.uploaded newVersion)

/-- `handleDelete`: remove the blob, delete the catalog record, and if the
record was latest promote the highest remaining version of the pair.  The
source checks no error of the three requests and always reports the
"File deleted" toast; a failing request leaves its target unchanged and the
operation continues. -/
def handleDelete (attachment : FileAttachment)
    (storeRemoveOk dbDeleteOk promoteOk : Bool) (s : AppState) :
    AppState × String :=
  let store1 :=
    if storeRemoveOk then s.store.filter (fun p => !(p == attachment.file_path))
    else s.store
  let cat1 := if dbDeleteOk then deleteById attachment.id s.catalog else s.catalog
  let cat2 :=
    if attachment.is_latest then
      match getVersionHistory attachment.task_id attachment.file_name cat1 with
      | [] => cat1
      | v :: _ => if promoteOk then promoteById v.id cat1 else cat1
    else cat1
  ({ s with store := store1, catalog := cat2 }, "File deleted")

/-- `onRestore`: demote every record of the pair, then mark the chosen
record latest.  `taskId` is the component's task id.  The source reads
neither update's result, so `demoteOk` and `promoteOk` tell whether each
issued update succeeds; a failed update leaves the catalog unchanged and
the operation continues to the next step. -/
def onRestore (taskId : String) (attachment : FileAttachment)
    (demoteOk promoteOk : Bool) (s : AppState) : AppState :=
  let cat1 :=
    if demoteOk then demotePair taskId attachment.file_name s.catalog else s.catalog
  let cat2 := if promoteOk then promoteById attachment.id cat1 else cat1
  { s with catalog := cat2 }

/-- Number of records of the pair in the catalog. -/
def pairCount (taskId fileName : String) (cat : List FileAttachment) : Nat :=
  cat.countP (inPair taskId fileName)

/-- Number of latest-flagged records of the pair in the catalog. -/
def latestCount (taskId fileName : String) (cat : List FileAttachment) : Nat :=
  cat.countP (fun a => inPair taskId fileName a && a.is_latest)

/-- The single-latest invariant: every pair with at least one record has
exactly one record flagged latest. -/
def catalogInv (cat : List FileAttachment) : Prop :=
  ∀ taskId fileName : String,
    0 < pairCount taskId fileName cat → latestCount taskId fileName cat = 1

/-- The catalog states of `handleFileUpload` after each issued catalog
request, in issue order: the initial state, the state after the demote
request (issued only when an existing latest record was found; if the
request fails — its error is ignored — the catalog is unchanged), and the
state after the insert (reached only when the store upload and the insert
succeed). -/
def uploadCatalogSteps (taskId uploaderId : String) (file : UploadFile)
    (uuid : String) (demoteOk storeOk insertOk : Bool) (s : AppState) :
    List (List FileAttachment) :=
  if (ALLOWED_FILE_TYPES.contains file.mime) = false then [s.catalog]
  else if MAX_FILE_SIZE < file.size then [s.catalog]
  else
    let existingFile :=
      (fetchAttachments taskId s.catalog).any (fun a => a.file_name == file.name)
    let step1 :=
      if demoteOk then demotePair taskId file.name s.catalog else s.catalog
    let base := if existingFile then [s.catalog, step1] else [s.catalog]
    if storeOk = false then base
    else if insertOk = false then base
    else base ++
      [(handleFileUpload taskId uploaderId file uuid demoteOk storeOk insertOk s).1.catalog]

/-- The catalog states of `onRestore` after each issued update, in issue
order: initial, after the demote request, after the promote request.  Both
requests are always issued; a failed one (its error is ignored) leaves the
catalog state of its step unchanged. -/
def restoreCatalogSteps (taskId : String) (attachment : FileAttachment)
    (demoteOk promoteOk : Bool) (s : AppState) : List (List FileAttachment) :=
  let step1 :=
    if demoteOk then demotePair taskId attachment.file_name s.catalog else s.catalog
  let step2 := if promoteOk then promoteById attachment.id step1 else step1
  [s.catalog, step1, step2]

/-- N successive fully successful uploads of the same file to the same task;
`uuids n` is the random token of the (n+1)-st upload. -/
def uploadN (taskId uploaderId : String) (file : UploadFile) (uuids : Nat → String) :
    Nat → AppState → AppState
  | 0, s => s
  | n + 1, s => (handleFileUpload taskId uploaderId file (uuids n) true true true
      (uploadN taskId uploaderId file uuids n s)).1

/-- Whether a character sequence contains two consecutive dots. -/
def hasDotDot : List Char → Bool
  | '.' :: '.' :: _ => true
  | _ :: t => hasDotDot t
  | [] => false

/-! ### Lemmas about the descending sort -/

theorem mem_insertByKeyDesc {key : FileAttachment → Nat} {x a : FileAttachment}
    {l : List FileAttachment} :
    a ∈ insertByKeyDesc key x l ↔ a = x ∨ a ∈ l := by
  induction l with
  | nil => simp [insertByKeyDesc]
  | cons b t ih =>
      by_cases h : key b ≤ key x
      · simp only [insertByKeyDesc, if_pos h, List.mem_cons]
        try tauto
      · simp only [insertByKeyDesc, if_neg h, List.mem_cons, ih]
        try tauto

theorem mem_sortByKeyDesc {key : FileAttachment → Nat} {a : FileAttachment}
    {l : List FileAttachment} :
    a ∈ sortByKeyDesc key l ↔ a ∈ l := by
  induction l with
  | nil => simp [sortByKeyDesc]
  | cons b t ih => simp [sortByKeyDesc, mem_insertByKeyDesc, ih]

theorem sortByKeyDesc_eq_nil {key : FileAttachment → Nat} {l : List FileAttachment} :
    sortByKeyDesc key l = [] ↔ l = [] := by
  cases l with
  | nil => simp [sortByKeyDesc]
  | cons b t =>
      simp only [sortByKeyDesc]
      constructor
      · intro h
        have : b ∈ insertByKeyDesc key b (sortByKeyDesc key t) :=
          mem_insertByKeyDesc.mpr (Or.inl rfl)
        rw [h] at this
        cases this
      · intro h
        cases h

theorem pairwise_insertByKeyDesc {key : FileAttachment → Nat} {x : FileAttachment}
    {l : List FileAttachment}
    (hl : List.Pairwise (fun a b => key b ≤ key a) l) :
    List.Pairwise (fun a b => key b ≤ key a) (insertByKeyDesc key x l) := by
  induction l with
  | nil => simp [insertByKeyDesc]
  | cons b t ih =>
      rcases List.pairwise_cons.mp hl with ⟨hb, ht⟩
      by_cases h : key b ≤ key x
      · simp only [insertByKeyDesc, if_pos h]
        refine List.pairwise_cons.mpr ⟨?_, hl⟩
        intro y hy
        rcases List.mem_cons.mp hy with hy | hy
        · exact hy ▸ h
        · exact le_trans (hb y hy) h
      · simp only [insertByKeyDesc, if_neg h]
        refine List.pairwise_cons.mpr ⟨?_, ih ht⟩
        intro y hy
        rcases mem_insertByKeyDesc.mp hy with hy | hy
        · exact hy ▸ le_of_not_le h
        · exact hb y hy

theorem pairwise_sortByKeyDesc {key : FileAttachment → Nat} {l : List FileAttachment} :
    List.Pairwise (fun a b => key b ≤ key a) (sortByKeyDesc key l) := by
  induction l with
  | nil => simp [sortByKeyDesc]
  | cons b t ih => exact pairwise_insertByKeyDesc ih

theorem sortByKeyDesc_head_max {key : FileAttachment → Nat} {l : List FileAttachment}
    {v : FileAttachment} {rest : List FileAttachment}
    (h : sortByKeyDesc key l = v :: rest) :
    v ∈ l ∧ ∀ x ∈ l, key x ≤ key v := by
  have hv : v ∈ l := by
    have : v ∈ sortByKeyDesc key l := by rw [h]; exact List.mem_cons_self v rest
    exact mem_sortByKeyDesc.mp this
  refine ⟨hv, ?_⟩
  intro x hx
  have hx' : x ∈ sortByKeyDesc key l := mem_sortByKeyDesc.mpr hx
  rw [h] at hx'
  rcases List.mem_cons.mp hx' with hx' | hx'
  · rw [hx']
  · have hp := @pairwise_sortByKeyDesc key l
    rw [h] at hp
    exact (List.pairwise_cons.mp hp).1 x hx'

/-! ### Counting helpers -/

theorem countP_split (p q : FileAttachment → Bool) (l : List FileAttachment) :
    l.countP p = l.countP (fun a => p a && q a) + l.countP (fun a => p a && !(q a)) := by
  induction l with
  | nil => simp
  | cons a t ih =>
      simp only [List.countP_cons, ih]
      cases hp : p a <;> cases hq : q a <;> simp [hp, hq] <;> omega

theorem countP_id_unique {cat : List FileAttachment} {x : FileAttachment}
    (hnd : (cat.map FileAttachment.id).Nodup) (hx : x ∈ cat)
    (q : FileAttachment → Bool) :
    cat.countP (fun a => q a && (a.id == x.id)) = if q x then 1 else 0 := by
  induction cat with
  | nil => cases hx
  | cons a t ih =>
      simp only [List.map_cons, List.nodup_cons] at hnd
      rcases List.mem_cons.mp hx with hx | hx
      · subst hx
        have ht : t.countP (fun a => q a && (a.id == x.id)) = 0 := by
          rw [List.countP_eq_zero]
          intro b hb
          have hbx : b.id ≠ x.id := by
            intro he
            exact hnd.1 (he ▸ List.mem_map.mpr ⟨b, hb, rfl⟩)
          simp [hbx]
        simp [List.countP_cons, ht]
      · have hax : a.id ≠ x.id := by
          intro he
          exact hnd.1 (he ▸ List.mem_map.mpr ⟨x, hx, rfl⟩)
        simp [List.countP_cons, hax, ih hnd.2 hx]

theorem eq_of_countP_le_one {cat : List FileAttachment} {p : FileAttachment → Bool}
    {x y : FileAttachment} (hle : cat.countP p ≤ 1) (hx : x ∈ cat) (hpx : p x)
    (hy : y ∈ cat) (hpy : p y) : x = y := by
  induction cat with
  | nil => cases hx
  | cons a t ih =>
      rw [List.countP_cons] at hle
      rcases List.mem_cons.mp hx with hx1 | hx1
      · rcases List.mem_cons.mp hy with hy1 | hy1
        · rw [hx1, hy1]
        · exfalso
          have hpos : 0 < t.countP p := List.countP_pos_iff.mpr ⟨y, hy1, hpy⟩
          rw [hx1] at hpx
          rw [if_pos hpx] at hle
          omega
      · rcases List.mem_cons.mp hy with hy1 | hy1
        · exfalso
          have hpos : 0 < t.countP p := List.countP_pos_iff.mpr ⟨x, hx1, hpx⟩
          rw [hy1] at hpy
          rw [if_pos hpy] at hle
          omega
        · exact ih (le_trans (Nat.le_add_right _ _) hle) hx1 hy1

/-! ### Effect of the catalog mutations on the pair counts -/

theorem inPair_iff {t fn : String} {a : FileAttachment} :
    inPair t fn a = true ↔ a.task_id = t ∧ a.file_name = fn := by
  simp [inPair]

theorem mem_pairRecords {t fn : String} {a : FileAttachment}
    {cat : List FileAttachment} :
    a ∈ pairRecords t fn cat ↔ a ∈ cat ∧ a.task_id = t ∧ a.file_name = fn := by
  simp [pairRecords, List.mem_filter, inPair_iff]

theorem pairCount_eq_length (t fn : String) (cat : List FileAttachment) :
    pairCount t fn cat = (pairRecords t fn cat).length :=
  List.countP_eq_length_filter _ _

theorem pairCount_pos_iff_pairRecords_ne_nil {t fn : String}
    {cat : List FileAttachment} :
    0 < pairCount t fn cat ↔ pairRecords t fn cat ≠ [] := by
  rw [pairCount_eq_length]
  exact ⟨fun h => List.ne_nil_of_length_pos h, fun h => List.length_pos.mpr h⟩

theorem inPair_set_latest (t fn : String) (a : FileAttachment) (b : Bool) :
    inPair t fn { a with is_latest := b } = inPair t fn a := rfl

theorem latestCount_demotePair_self (t fn : String) (cat : List FileAttachment) :
    latestCount t fn (demotePair t fn cat) = 0 := by
  unfold latestCount demotePair
  rw [List.countP_map, List.countP_eq_zero]
  intro a _
  by_cases h : inPair t fn a = true
  · simp [Function.comp, h]
  · simp only [Bool.not_eq_true] at h
    simp [Function.comp, h]

theorem latestCount_demotePair_ne {t' fn' t fn : String}
    (h : t' ≠ t ∨ fn' ≠ fn) (cat : List FileAttachment) :
    latestCount t' fn' (demotePair t fn cat) = latestCount t' fn' cat := by
  unfold latestCount demotePair
  rw [List.countP_map]
  apply List.countP_congr
  intro a _
  by_cases hp : inPair t fn a = true
  · have hne : inPair t' fn' a = false := by
      cases hq : inPair t' fn' a
      · rfl
      · exfalso
        rcases inPair_iff.mp hq with ⟨g1, g2⟩
        rcases inPair_iff.mp hp with ⟨k1, k2⟩
        rcases h with h3 | h3
        · exact h3 (g1.symm.trans k1)
        · exact h3 (g2.symm.trans k2)
    simp [Function.comp, hp, inPair_set_latest, hne]
  · simp only [Bool.not_eq_true] at hp
    simp [Function.comp, hp]

theorem pairCount_demotePair (t' fn' t fn : String) (cat : List FileAttachment) :
    pairCount t' fn' (demotePair t fn cat) = pairCount t' fn' cat := by
  unfold pairCount demotePair
  rw [List.countP_map]
  apply List.countP_congr
  intro a _
  by_cases hp : inPair t fn a = true
  · simp [Function.comp, hp, inPair_set_latest]
  · simp only [Bool.not_eq_true] at hp
    simp [Function.comp, hp]

theorem pairCount_promoteById (t fn : String) (i : Nat) (cat : List FileAttachment) :
    pairCount t fn (promoteById i cat) = pairCount t fn cat := by
  unfold pairCount promoteById
  rw [List.countP_map]
  apply List.countP_congr
  intro a _
  by_cases hp : (a.id == i) = true
  · simp [Function.comp, hp, inPair_set_latest]
  · simp only [Bool.not_eq_true] at hp
    simp [Function.comp, hp]

theorem latestCount_promoteById {cat : List FileAttachment} {x : FileAttachment}
    (hnd : (cat.map FileAttachment.id).Nodup) (hx : x ∈ cat) (t fn : String) :
    latestCount t fn (promoteById x.id cat)
        + (if inPair t fn x && x.is_latest then 1 else 0)
      = (if inPair t fn x then 1 else 0) + latestCount t fn cat := by
  have h1 : latestCount t fn (promoteById x.id cat)
      = cat.countP (fun a => inPair t fn a && (a.id == x.id || a.is_latest)) := by
    unfold latestCount promoteById
    rw [List.countP_map]
    apply List.countP_congr
    intro a _
    by_cases h : (a.id == x.id) = true
    · simp [Function.comp, h, inPair_set_latest]
    · simp only [Bool.not_eq_true] at h
      simp [Function.comp, h]
  have h2 := countP_split (fun a => inPair t fn a && (a.id == x.id || a.is_latest))
    (fun a => a.id == x.id) cat
  have h3 : cat.countP
      (fun a => (inPair t fn a && (a.id == x.id || a.is_latest)) && (a.id == x.id))
      = if inPair t fn x then 1 else 0 := by
    have hc : cat.countP
        (fun a => (inPair t fn a && (a.id == x.id || a.is_latest)) && (a.id == x.id))
        = cat.countP (fun a => inPair t fn a && (a.id == x.id)) := by
      apply List.countP_congr
      intro a _
      cases c1 : (a.id == x.id) <;> cases c2 : inPair t fn a <;>
        cases c3 : a.is_latest <;> simp [c1, c2, c3]
    rw [hc]
    exact countP_id_unique hnd hx _
  have h4 : cat.countP
      (fun a => (inPair t fn a && (a.id == x.id || a.is_latest)) && !(a.id == x.id))
      = cat.countP (fun a => (inPair t fn a && a.is_latest) && !(a.id == x.id)) := by
    apply List.countP_congr
    intro a _
    cases c1 : (a.id == x.id) <;> cases c2 : inPair t fn a <;>
      cases c3 : a.is_latest <;> simp [c1, c2, c3]
  have hL : latestCount t fn cat
      = cat.countP (fun a => (inPair t fn a && a.is_latest) && (a.id == x.id))
        + cat.countP (fun a => (inPair t fn a && a.is_latest) && !(a.id == x.id)) :=
    countP_split _ _ cat
  have h6 : cat.countP (fun a => (inPair t fn a && a.is_latest) && (a.id == x.id))
      = if inPair t fn x && x.is_latest then 1 else 0 :=
    countP_id_unique hnd hx _
  rw [h3, h4] at h2
  rw [h6] at hL
  rw [h1, h2, hL]
  omega

theorem countP_deleteById {cat : List FileAttachment} {x : FileAttachment}
    (hnd : (cat.map FileAttachment.id).Nodup) (hx : x ∈ cat)
    (p : FileAttachment → Bool) :
    cat.countP p = (if p x then 1 else 0) + (deleteById x.id cat).countP p := by
  unfold deleteById
  rw [List.countP_filter]
  have h1 := countP_split p (fun a => a.id == x.id) cat
  rw [countP_id_unique hnd hx p] at h1
  exact h1

theorem nodup_deleteById {cat : List FileAttachment} (i : Nat)
    (hnd : (cat.map FileAttachment.id).Nodup) :
    ((deleteById i cat).map FileAttachment.id).Nodup :=
  ((List.filter_sublist cat).map FileAttachment.id).nodup hnd

theorem mem_deleteById {cat : List FileAttachment} {i : Nat} {a : FileAttachment} :
    a ∈ deleteById i cat ↔ a ∈ cat ∧ a.id ≠ i := by
  simp [deleteById, List.mem_filter]

theorem pairRecords_append (t fn : String) (l1 l2 : List FileAttachment) :
    pairRecords t fn (l1 ++ l2) = pairRecords t fn l1 ++ pairRecords t fn l2 :=
  List.filter_append _ _

theorem latestCount_append_single (t fn : String) (cat : List FileAttachment)
    (r : FileAttachment) :
    latestCount t fn (cat ++ [r])
      = latestCount t fn cat + (if inPair t fn r && r.is_latest then 1 else 0) := by
  unfold latestCount
  rw [List.countP_append]
  simp [List.countP_cons]

theorem pairCount_append_single (t fn : String) (cat : List FileAttachment)
    (r : FileAttachment) :
    pairCount t fn (cat ++ [r])
      = pairCount t fn cat + (if inPair t fn r then 1 else 0) := by
  unfold pairCount
  rw [List.countP_append]
  simp [List.countP_cons]

theorem pairRecords_demotePair_self (t fn : String) (cat : List FileAttachment) :
    pairRecords t fn (demotePair t fn cat)
      = (pairRecords t fn cat).map (fun a => { a with is_latest := false }) := by
  unfold pairRecords demotePair
  rw [List.filter_map]
  have hf : List.filter
      ((inPair t fn) ∘ (fun a => if inPair t fn a then { a with is_latest := false } else a)) cat
      = List.filter (inPair t fn) cat := by
    apply List.filter_congr
    intro a _
    by_cases h : inPair t fn a = true
    · simp [Function.comp, h, inPair_set_latest]
    · simp only [Bool.not_eq_true] at h
      simp [Function.comp, h]
  rw [hf]
  apply List.map_congr_left
  intro a ha
  have h := (List.mem_filter.mp ha).2
  simp [h]

theorem getVersionHistory_head {t fn : String} {cat : List FileAttachment}
    {v : FileAttachment} {rest : List FileAttachment}
    (h : getVersionHistory t fn cat = v :: rest) :
    v ∈ pairRecords t fn cat ∧ ∀ x ∈ pairRecords t fn cat, x.version ≤ v.version :=
  sortByKeyDesc_head_max h

theorem getVersionHistory_eq_nil {t fn : String} {cat : List FileAttachment} :
    getVersionHistory t fn cat = [] ↔ pairRecords t fn cat = [] :=
  sortByKeyDesc_eq_nil

theorem existing_iff_latestCount_pos (t fn : String) (cat : List FileAttachment) :
    ((fetchAttachments t cat).any (fun a => a.file_name == fn)) = true
      ↔ 0 < latestCount t fn cat := by
  rw [List.any_eq_true]
  unfold fetchAttachments latestCount
  rw [List.countP_pos_iff]
  constructor
  · rintro ⟨a, ha, hn⟩
    have ha' := List.mem_filter.mp (mem_sortByKeyDesc.mp ha)
    refine ⟨a, ha'.1, ?_⟩
    have h2 := ha'.2
    simp only [Bool.and_eq_true] at h2 ⊢
    refine ⟨inPair_iff.mpr ⟨?_, ?_⟩, h2.2⟩
    · simpa using h2.1
    · simpa using hn
  · rintro ⟨a, ha, hp⟩
    simp only [Bool.and_eq_true] at hp
    rcases hp with ⟨hip, hl⟩
    rcases inPair_iff.mp hip with ⟨h1, h2⟩
    refine ⟨a, ?_, by simp [h2]⟩
    apply mem_sortByKeyDesc.mpr
    apply List.mem_filter.mpr
    exact ⟨ha, by simp [h1, hl]⟩

/-! ### Characterization of a successful upload -/

theorem upload_success_latestCounts {taskId uploaderId : String} {file : UploadFile}
    {uuid : String} {storeOk insertOk : Bool} {s : AppState} {v : Nat}
    (h : (handleFileUpload taskId uploaderId file uuid true storeOk insertOk s).2
         = UploadResult.uploaded v) :
    latestCount taskId file.name
        (handleFileUpload taskId uploaderId file uuid true storeOk insertOk s).1.catalog = 1
    ∧ ∀ t fn : String, (t ≠ taskId ∨ fn ≠ file.name) →
        latestCount t fn
            (handleFileUpload taskId uploaderId file uuid true storeOk insertOk s).1.catalog
          = latestCount t fn s.catalog
        ∧ pairCount t fn
            (handleFileUpload taskId uploaderId file uuid true storeOk insertOk s).1.catalog
          = pairCount t fn s.catalog := by
  unfold handleFileUpload at h ⊢
  by_cases h1 : (ALLOWED_FILE_TYPES.contains file.mime) = false
  · rw [if_pos h1] at h
    simp at h
  rw [if_neg h1] at h ⊢
  by_cases h2 : MAX_FILE_SIZE < file.size
  · rw [if_pos h2] at h
    simp at h
  rw [if_neg h2] at h ⊢
  by_cases h3 : storeOk = false
  · simp only [if_pos h3] at h
    simp at h
  simp only [if_neg h3] at h ⊢
  by_cases h4 : insertOk = false
  · simp only [if_pos h4] at h
    simp at h
  simp only [if_neg h4] at h ⊢
  by_cases hex : ((fetchAttachments taskId s.catalog).any
      (fun a => a.file_name == file.name)) = true
  · simp only [if_pos hex, if_true]
    constructor
    · rw [latestCount_append_single, latestCount_demotePair_self]
      simp [inPair]
    · intro t fn hne
      constructor
      · rw [latestCount_append_single, latestCount_demotePair_ne hne]
        rcases hne with hne | hne <;> simp [inPair, Ne.symm hne]
      · rw [pairCount_append_single, pairCount_demotePair]
        rcases hne with hne | hne <;> simp [inPair, Ne.symm hne]
  · have hzero : latestCount taskId file.name s.catalog = 0 := by
      have hmp := (existing_iff_latestCount_pos taskId file.name s.catalog).mpr
      by_cases hc : 0 < latestCount taskId file.name s.catalog
      · exact absurd (hmp hc) hex
      · omega
    simp only [if_neg hex]
    constructor
    · rw [latestCount_append_single, hzero]
      simp [inPair]
    · intro t fn hne
      constructor
      · rw [latestCount_append_single]
        rcases hne with hne | hne <;> simp [inPair, Ne.symm hne]
      · rw [pairCount_append_single]
        rcases hne with hne | hne <;> simp [inPair, Ne.symm hne]

/-! ### Characterization of a restore -/

theorem inPair_eq_false_of_pair_ne {t fn taskId name : String} {r : FileAttachment}
    (h1 : r.task_id = taskId) (h2 : r.file_name = name)
    (hne : t ≠ taskId ∨ fn ≠ name) : inPair t fn r = false := by
  cases hq : inPair t fn r
  · rfl
  · exfalso
    rcases inPair_iff.mp hq with ⟨g1, g2⟩
    rcases hne with hne | hne
    · exact hne (g1.symm.trans h1)
    · exact hne (g2.symm.trans h2)

theorem map_id_demotePair (t fn : String) (cat : List FileAttachment) :
    (demotePair t fn cat).map FileAttachment.id = cat.map FileAttachment.id := by
  unfold demotePair
  rw [List.map_map]
  apply List.map_congr_left
  intro a _
  by_cases h : inPair t fn a = true
  · simp [Function.comp, h]
  · simp only [Bool.not_eq_true] at h
    simp [Function.comp, h]

theorem onRestore_catalog_map {taskId : String} {r : FileAttachment} {s : AppState}
    (hnd : (s.catalog.map FileAttachment.id).Nodup) (hr : r ∈ s.catalog)
    (ht : r.task_id = taskId) :
    (onRestore taskId r true true s).catalog
      = s.catalog.map (fun x =>
          if inPair taskId r.file_name x then { x with is_latest := (x.id == r.id) }
          else x) := by
  have hres : (onRestore taskId r true true s).catalog
      = promoteById r.id (demotePair taskId r.file_name s.catalog) := rfl
  rw [hres]
  unfold promoteById demotePair
  rw [List.map_map]
  apply List.map_congr_left
  intro a ha
  by_cases hp : inPair taskId r.file_name a = true
  · by_cases hid : (a.id == r.id) = true
    · simp [Function.comp, hp, hid]
    · simp only [Bool.not_eq_true] at hid
      simp [Function.comp, hp, hid]
  · have hid : (a.id == r.id) = false := by
      cases hq : (a.id == r.id)
      · rfl
      · exfalso
        have he : a = r := List.inj_on_of_nodup_map hnd ha hr (by simpa using hq)
        apply hp
        rw [he]
        exact inPair_iff.mpr ⟨ht, rfl⟩
    simp only [Bool.not_eq_true] at hp
    simp [Function.comp, hp, hid]

theorem restore_latestCounts {taskId : String} {r : FileAttachment} {s : AppState}
    (hnd : (s.catalog.map FileAttachment.id).Nodup) (hr : r ∈ s.catalog)
    (ht : r.task_id = taskId) :
    latestCount taskId r.file_name (onRestore taskId r true true s).catalog = 1
    ∧ (∀ t fn : String, (t ≠ taskId ∨ fn ≠ r.file_name) →
        latestCount t fn (onRestore taskId r true true s).catalog = latestCount t fn s.catalog)
    ∧ (∀ t fn : String,
        pairCount t fn (onRestore taskId r true true s).catalog = pairCount t fn s.catalog) := by
  have hpr : inPair taskId r.file_name r = true := inPair_iff.mpr ⟨ht, rfl⟩
  have hnd1 : ((demotePair taskId r.file_name s.catalog).map FileAttachment.id).Nodup := by
    rw [map_id_demotePair]
    exact hnd
  have hx : ({ r with is_latest := false } : FileAttachment)
      ∈ demotePair taskId r.file_name s.catalog := by
    unfold demotePair
    exact List.mem_map.mpr ⟨r, hr, by simp [hpr]⟩
  refine ⟨?_, ?_, ?_⟩
  · have hE := latestCount_promoteById hnd1 hx taskId r.file_name
    simp only [inPair_set_latest, hpr] at hE
    rw [latestCount_demotePair_self] at hE
    simpa [onRestore] using hE
  · intro t fn hne
    have hfalse : inPair t fn r = false := inPair_eq_false_of_pair_ne ht rfl hne
    have hE := latestCount_promoteById hnd1 hx t fn
    simp only [inPair_set_latest, hfalse] at hE
    rw [latestCount_demotePair_ne hne] at hE
    simpa [onRestore] using hE
  · intro t fn
    have h1 : pairCount t fn (onRestore taskId r true true s).catalog
        = pairCount t fn (demotePair taskId r.file_name s.catalog) := by
      unfold onRestore
      exact pairCount_promoteById t fn r.id _
    rw [h1, pairCount_demotePair]

/-! ### Characterization of a delete -/

theorem delete_other_counts {r : FileAttachment} {cat : List FileAttachment}
    (hnd : (cat.map FileAttachment.id).Nodup) (hr : r ∈ cat)
    {t fn : String} (hne : t ≠ r.task_id ∨ fn ≠ r.file_name) :
    latestCount t fn (deleteById r.id cat) = latestCount t fn cat
    ∧ pairCount t fn (deleteById r.id cat) = pairCount t fn cat := by
  have hfalse : inPair t fn r = false := inPair_eq_false_of_pair_ne rfl rfl hne
  constructor
  · have h := countP_deleteById hnd hr (fun a => inPair t fn a && a.is_latest)
    rw [hfalse] at h
    simp at h
    exact h.symm
  · have h := countP_deleteById hnd hr (inPair t fn)
    rw [hfalse] at h
    simp at h
    exact h.symm

theorem delete_pair_counts {r : FileAttachment} {cat : List FileAttachment}
    (hnd : (cat.map FileAttachment.id).Nodup) (hr : r ∈ cat) :
    pairCount r.task_id r.file_name cat
      = 1 + pairCount r.task_id r.file_name (deleteById r.id cat)
    ∧ latestCount r.task_id r.file_name cat
      = (if r.is_latest then 1 else 0)
        + latestCount r.task_id r.file_name (deleteById r.id cat) := by
  have hpr : inPair r.task_id r.file_name r = true := inPair_iff.mpr ⟨rfl, rfl⟩
  constructor
  · have h := countP_deleteById hnd hr (inPair r.task_id r.file_name)
    rw [hpr] at h
    simpa using h
  · have h := countP_deleteById hnd hr
      (fun a => inPair r.task_id r.file_name a && a.is_latest)
    rw [hpr] at h
    simpa using h

theorem handleDelete_ok_catalog (r : FileAttachment) (s : AppState) :
    (handleDelete r true true true s).1.catalog
      = (if r.is_latest then
          match getVersionHistory r.task_id r.file_name (deleteById r.id s.catalog) with
          | [] => deleteById r.id s.catalog
          | v :: _ => promoteById v.id (deleteById r.id s.catalog)
        else deleteById r.id s.catalog) := rfl

/-! ### Invariant preservation for the three operations -/

theorem upload_preserves_catalogInv {taskId uploaderId : String} {file : UploadFile}
    {uuid : String} {storeOk insertOk : Bool} {s : AppState} {v : Nat}
    (hinv : catalogInv s.catalog)
    (h : (handleFileUpload taskId uploaderId file uuid true storeOk insertOk s).2
         = UploadResult.uploaded v) :
    catalogInv (handleFileUpload taskId uploaderId file uuid true storeOk insertOk s).1.catalog := by
  rcases upload_success_latestCounts h with ⟨hpair, hother⟩
  intro t fn hpos
  by_cases hq : t = taskId ∧ fn = file.name
  · rw [hq.1, hq.2]
    exact hpair
  · have hne : t ≠ taskId ∨ fn ≠ file.name := not_and_or.mp hq
    rcases hother t fn hne with ⟨hl, hc⟩
    rw [hl]
    apply hinv
    rw [← hc]
    exact hpos

theorem restore_preserves_catalogInv {taskId : String} {r : FileAttachment}
    {s : AppState} (hnd : (s.catalog.map FileAttachment.id).Nodup)
    (hr : r ∈ s.catalog) (ht : r.task_id = taskId) (hinv : catalogInv s.catalog) :
    catalogInv (onRestore taskId r true true s).catalog := by
  rcases restore_latestCounts hnd hr ht with ⟨hpair, hother, hcount⟩
  intro t fn hpos
  by_cases hq : t = taskId ∧ fn = r.file_name
  · rw [hq.1, hq.2]
    exact hpair
  · have hne : t ≠ taskId ∨ fn ≠ r.file_name := not_and_or.mp hq
    rw [hother t fn hne]
    apply hinv
    rw [← hcount t fn]
    exact hpos

theorem delete_preserves_catalogInv {r : FileAttachment} {s : AppState}
    (hnd : (s.catalog.map FileAttachment.id).Nodup) (hr : r ∈ s.catalog)
    (hinv : catalogInv s.catalog) :
    catalogInv ((handleDelete r true true true s).1.catalog) := by
  rw [handleDelete_ok_catalog]
  have hppos : 0 < pairCount r.task_id r.file_name s.catalog :=
    List.countP_pos_iff.mpr ⟨r, hr, inPair_iff.mpr ⟨rfl, rfl⟩⟩
  have hlat1 : latestCount r.task_id r.file_name s.catalog = 1 := hinv _ _ hppos
  by_cases hlat : r.is_latest = true
  · rw [if_pos hlat]
    have hzero : latestCount r.task_id r.file_name (deleteById r.id s.catalog) = 0 := by
      have h2 := (delete_pair_counts hnd hr).2
      rw [hlat1, if_pos hlat] at h2
      omega
    cases hgv : getVersionHistory r.task_id r.file_name (deleteById r.id s.catalog) with
    | nil =>
        have hnil : pairRecords r.task_id r.file_name (deleteById r.id s.catalog) = [] :=
          getVersionHistory_eq_nil.mp hgv
        intro t fn hpos
        by_cases hq : t = r.task_id ∧ fn = r.file_name
        · exfalso
          rw [hq.1, hq.2, pairCount_eq_length, hnil] at hpos
          simp at hpos
        · have hne : t ≠ r.task_id ∨ fn ≠ r.file_name := not_and_or.mp hq
          rcases delete_other_counts hnd hr hne with ⟨hl, hc⟩
          rw [hl]
          apply hinv
          rw [← hc]
          exact hpos
    | cons v vs =>
        have hv := getVersionHistory_head hgv
        rcases mem_pairRecords.mp hv.1 with ⟨hv1, hv2, hv3⟩
        have hnd1 := nodup_deleteById r.id hnd
        have hvpair : inPair r.task_id r.file_name v = true := inPair_iff.mpr ⟨hv2, hv3⟩
        have hvlat : v.is_latest = false := by
          have hz := List.countP_eq_zero.mp hzero v hv1
          rw [hvpair] at hz
          simpa using hz
        intro t fn hpos
        by_cases hq : t = r.task_id ∧ fn = r.file_name
        · rw [hq.1, hq.2]
          have hE := latestCount_promoteById hnd1 hv1 r.task_id r.file_name
          rw [hvpair, hvlat, hzero] at hE
          simpa using hE
        · have hne : t ≠ r.task_id ∨ fn ≠ r.file_name := not_and_or.mp hq
          have hvfalse : inPair t fn v = false := inPair_eq_false_of_pair_ne hv2 hv3 hne
          have hE := latestCount_promoteById hnd1 hv1 t fn
          rw [hvfalse] at hE
          simp at hE
          rcases delete_other_counts hnd hr hne with ⟨hl, hc⟩
          rw [hE, hl]
          apply hinv
          rw [pairCount_promoteById, hc] at hpos
          exact hpos
  · rw [if_neg hlat]
    have hlatf : r.is_latest = false := by
      simpa using hlat
    intro t fn hpos
    by_cases hq : t = r.task_id ∧ fn = r.file_name
    · rw [hq.1, hq.2]
      have h2 := (delete_pair_counts hnd hr).2
      rw [hlat1, hlatf] at h2
      simp at h2
      omega
    · have hne : t ≠ r.task_id ∨ fn ≠ r.file_name := not_and_or.mp hq
      rcases delete_other_counts hnd hr hne with ⟨hl, hc⟩
      rw [hl]
      apply hinv
      rw [← hc]
      exact hpos

/-! ### C1: the single-latest invariant after completed operations -/

/-- C1: For every (taskId, fileName) pair with at least one Catalog record,
exactly one record of the pair has isLatest = true immediately after any
successfully completed Upload, Restore, or Delete operation.  Stated as
preservation: from any catalog satisfying the invariant (with distinct
record ids, as the database guarantees for a primary key), each of the
three operations, when it completes successfully, yields a catalog
satisfying the invariant again. -/
theorem single_latest_after_operations (s : AppState)
    (hinv : catalogInv s.catalog)
    (hnd : (s.catalog.map FileAttachment.id).Nodup) :
    (∀ (taskId uploaderId : String) (file : UploadFile) (uuid : String)
        (storeOk insertOk : Bool) (v : Nat),
        (handleFileUpload taskId uploaderId file uuid true storeOk insertOk s).2
          = UploadResult.uploaded v →
        catalogInv (handleFileUpload taskId uploaderId file uuid true storeOk insertOk s).1.catalog)
    ∧ (∀ (taskId : String) (attachment : FileAttachment),
        attachment ∈ s.catalog → attachment.task_id = taskId →
        catalogInv (onRestore taskId attachment true true s).catalog)
    ∧ (∀ attachment : FileAttachment, attachment ∈ s.catalog →
        catalogInv ((handleDelete attachment true true true s).1.catalog)) := by
  refine ⟨?_, ?_, ?_⟩
  · intro taskId uploaderId file uuid storeOk insertOk v h
    exact upload_preserves_catalogInv hinv h
  · intro taskId attachment hr ht
    exact restore_preserves_catalogInv hnd hr ht hinv
  · intro attachment hr
    exact delete_preserves_catalogInv hnd hr hinv

/-- Witness for C1 at a concrete input: the empty catalog satisfies the
invariant, and a successful upload into it preserves it. -/
theorem single_latest_after_operations_witness :
    catalogInv ((handleFileUpload ("t1") ("u1") ⟨"a.txt", "text/plain", 3⟩ ("tok")
        true true true ⟨[], [], 0, 0⟩).1.catalog) := by
  have h := (single_latest_after_operations ⟨[], [], 0, 0⟩
      (fun t fn hpos => absurd hpos (by simp [pairCount]))
      (by simp)).1
  exact h ("t1") ("u1") ⟨"a.txt", "text/plain", 3⟩ ("tok") true true 1 (by decide)

/-! ### C8: rejected uploads have no side effect -/

/-- C8: For every Upload whose file has a MIME type outside the allow-list,
or whose size exceeds 10,485,760 bytes, the operation is rejected with zero
Catalog records inserted or updated and zero Store writes: the whole state
is unchanged and the reported result is the per-file rejection. -/
theorem rejected_upload_no_side_effect (taskId uploaderId : String)
    (file : UploadFile) (uuid : String) (storeOk insertOk : Bool) (s : AppState)
    (hbad : (ALLOWED_FILE_TYPES.contains file.mime) = false
            ∨ MAX_FILE_SIZE < file.size) :
    (handleFileUpload taskId uploaderId file uuid true storeOk insertOk s).1 = s
    ∧ ((handleFileUpload taskId uploaderId file uuid true storeOk insertOk s).2
         = UploadResult.invalidType
       ∨ (handleFileUpload taskId uploaderId file uuid true storeOk insertOk s).2
         = UploadResult.tooLarge) := by
  unfold handleFileUpload
  by_cases h1 : (ALLOWED_FILE_TYPES.contains file.mime) = false
  · rw [if_pos h1]
    exact ⟨rfl, Or.inl rfl⟩
  · have h2 : MAX_FILE_SIZE < file.size := by
      rcases hbad with hb | hb
      · exact absurd hb h1
      · exact hb
    rw [if_neg h1, if_pos h2]
    exact ⟨rfl, Or.inr rfl⟩

/-- Witness for C8: a disallowed MIME type at a concrete state. -/
theorem rejected_upload_no_side_effect_witness :
    (handleFileUpload ("t1") ("u1") ⟨"a.exe", "application/x-dos", 3⟩ ("tok")
        true true true ⟨[], [], 0, 0⟩).1 = ⟨[], [], 0, 0⟩
    ∧ ((handleFileUpload ("t1") ("u1") ⟨"a.exe", "application/x-dos", 3⟩ ("tok")
          true true true ⟨[], [], 0, 0⟩).2 = UploadResult.invalidType
       ∨ (handleFileUpload ("t1") ("u1") ⟨"a.exe", "application/x-dos", 3⟩ ("tok")
          true true true ⟨[], [], 0, 0⟩).2 = UploadResult.tooLarge) :=
  rejected_upload_no_side_effect ("t1") ("u1") ⟨"a.exe", "application/x-dos", 3⟩
    ("tok") true true ⟨[], [], 0, 0⟩ (Or.inl (by decide))

/-! ### C4: what a store-upload failure leaves behind -/

/-- C4 counterexample: an Upload whose Store blob upload fails, against a
catalog holding one latest record of the pair.  The claim says the Catalog
state is the same as before the operation, but the demote update has already
run, so the catalog differs. -/
theorem store_failure_mutates_catalog :
    (handleFileUpload ("t1") ("u1") ⟨"a.txt", "text/plain", 3⟩ ("tok") true false true
        ⟨[⟨0, "t1", "a.txt", "t1/x-a.txt", "text/plain", 3, 1, true, some ("u1"), 0⟩],
         ["t1/x-a.txt"], 1, 1⟩).2 = UploadResult.storeFailed
    ∧ (handleFileUpload ("t1") ("u1") ⟨"a.txt", "text/plain", 3⟩ ("tok") true false true
        ⟨[⟨0, "t1", "a.txt", "t1/x-a.txt", "text/plain", 3, 1, true, some ("u1"), 0⟩],
         ["t1/x-a.txt"], 1, 1⟩).1.catalog
      ≠ [⟨0, "t1", "a.txt", "t1/x-a.txt", "text/plain", 3, 1, true, some ("u1"), 0⟩] := by
  decide

/-- C4 amended: a Store-upload failure aborts before the Catalog insert —
no record is inserted, the store is unchanged and the catalog keeps its
length — but the demote update has already been issued, so when the pair
had a latest record the pair's records are left demoted rather than
untouched. -/
theorem store_failure_no_catalog_insert (taskId uploaderId : String)
    (file : UploadFile) (uuid : String) (insertOk : Bool) (s : AppState)
    (hmime : (ALLOWED_FILE_TYPES.contains file.mime) = true)
    (hsize : ¬ MAX_FILE_SIZE < file.size) :
    (handleFileUpload taskId uploaderId file uuid true false insertOk s).2
      = UploadResult.storeFailed
    ∧ (handleFileUpload taskId uploaderId file uuid true false insertOk s).1.store = s.store
    ∧ (handleFileUpload taskId uploaderId file uuid true false insertOk s).1.catalog.length
        = s.catalog.length
    ∧ (handleFileUpload taskId uploaderId file uuid true false insertOk s).1.catalog
        = (if 0 < latestCount taskId file.name s.catalog
           then demotePair taskId file.name s.catalog else s.catalog) := by
  have hmime' : ¬((ALLOWED_FILE_TYPES.contains file.mime) = false) := by
    rw [hmime]
    simp
  unfold handleFileUpload
  rw [if_neg hmime', if_neg hsize]
  by_cases hex : ((fetchAttachments taskId s.catalog).any
      (fun a => a.file_name == file.name)) = true
  · have hpos : 0 < latestCount taskId file.name s.catalog :=
      (existing_iff_latestCount_pos _ _ _).mp hex
    simp only [if_pos hex, if_pos hpos]
    refine ⟨rfl, rfl, ?_, rfl⟩
    unfold demotePair
    exact List.length_map _ _
  · have hpos : ¬ 0 < latestCount taskId file.name s.catalog :=
      fun hc => hex ((existing_iff_latestCount_pos _ _ _).mpr hc)
    simp only [if_neg hex, if_neg hpos]
    exact ⟨rfl, rfl, rfl, rfl⟩

/-- Witness for the amended C4 at a concrete input. -/
theorem store_failure_no_catalog_insert_witness :
    (handleFileUpload ("t1") ("u1") ⟨"a.txt", "text/plain", 3⟩ ("tok") true false true
        ⟨[], [], 0, 0⟩).2 = UploadResult.storeFailed
    ∧ (handleFileUpload ("t1") ("u1") ⟨"a.txt", "text/plain", 3⟩ ("tok") true false true
        ⟨[], [], 0, 0⟩).1.store = ([] : List String)
    ∧ (handleFileUpload ("t1") ("u1") ⟨"a.txt", "text/plain", 3⟩ ("tok") true false true
        ⟨[], [], 0, 0⟩).1.catalog.length = ([] : List FileAttachment).length
    ∧ (handleFileUpload ("t1") ("u1") ⟨"a.txt", "text/plain", 3⟩ ("tok") true false true
        ⟨[], [], 0, 0⟩).1.catalog
        = (if 0 < latestCount ("t1") ("a.txt") ([] : List FileAttachment)
           then demotePair ("t1") ("a.txt") ([] : List FileAttachment)
           else ([] : List FileAttachment)) :=
  store_failure_no_catalog_insert ("t1") ("u1") ⟨"a.txt", "text/plain", 3⟩ ("tok")
    true ⟨[], [], 0, 0⟩ (by decide) (by decide)

/-! ### C9: delete ignores external failures -/

/-- C9 counterexample: a Delete whose Store delete request fails.  The claim
says the error is surfaced and the operation aborts with no further steps,
but the Catalog delete still executes (the catalog becomes empty) and the
operation still reports the success message. -/
theorem delete_store_failure_continues :
    (handleDelete ⟨0, "t1", "a.txt", "t1/x-a.txt", "text/plain", 3, 1, true, some ("u1"), 0⟩
        false true true
        ⟨[⟨0, "t1", "a.txt", "t1/x-a.txt", "text/plain", 3, 1, true, some ("u1"), 0⟩],
         ["t1/x-a.txt"], 1, 1⟩).1.catalog = []
    ∧ (handleDelete ⟨0, "t1", "a.txt", "t1/x-a.txt", "text/plain", 3, 1, true, some ("u1"), 0⟩
        false true true
        ⟨[⟨0, "t1", "a.txt", "t1/x-a.txt", "text/plain", 3, 1, true, some ("u1"), 0⟩],
         ["t1/x-a.txt"], 1, 1⟩).2 = "File deleted" := by
  decide

/-- C9 amended: `handleDelete` checks no error of its Store or Catalog
requests: it always reports the success message, the catalog steps run
regardless of a Store-delete failure, and the store step runs regardless of
a Catalog-delete failure — a failed request only leaves its own target
unchanged. -/
theorem delete_failures_ignored (attachment : FileAttachment)
    (storeRemoveOk dbDeleteOk promoteOk : Bool) (s : AppState) :
    (handleDelete attachment storeRemoveOk dbDeleteOk promoteOk s).2 = "File deleted"
    ∧ (handleDelete attachment storeRemoveOk dbDeleteOk promoteOk s).1.catalog
        = (handleDelete attachment true dbDeleteOk promoteOk s).1.catalog
    ∧ (handleDelete attachment storeRemoveOk dbDeleteOk promoteOk s).1.store
        = (handleDelete attachment storeRemoveOk true promoteOk s).1.store :=
  ⟨rfl, rfl, rfl⟩

/-! ### C3: sanitization of hostile file names -/

theorem sanitize_chars_safe (name : String) :
    ∀ c ∈ (sanitizeFilename name).data, isSafeChar c = true := by
  intro c hc
  unfold sanitizeFilename at hc
  have hc2 : c ∈ (name.data).map (fun d => if isSafeChar d then d else '_') :=
    List.mem_of_mem_take hc
  rcases List.mem_map.mp hc2 with ⟨d, _, hd⟩
  by_cases h : isSafeChar d = true
  · rw [← hd, if_pos h]
    exact h
  · rw [← hd, if_neg h]
    decide

theorem upload_into_empty (taskId uploaderId : String) (file : UploadFile)
    (uuid : String)
    (hmime : (ALLOWED_FILE_TYPES.contains file.mime) = true)
    (hsize : ¬ MAX_FILE_SIZE < file.size) :
    (handleFileUpload taskId uploaderId file uuid true true true ⟨[], [], 0, 0⟩).1.catalog
      = [{ id := 0, task_id := taskId, file_name := file.name,
           file_path := taskId ++ "/" ++ uuid ++ "-" ++ sanitizeFilename file.name,
           file_type := file.mime, file_size := file.size, version := 1,
           is_latest := true, uploaded_by := some uploaderId, created_at := 0 }] := by
  have hmime' : ¬((ALLOWED_FILE_TYPES.contains file.mime) = false) := by
    rw [hmime]
    simp
  unfold handleFileUpload
  rw [if_neg hmime', if_neg hsize]
  rfl

/-- C3 counterexample: uploading a file named "../../etc/passwd.png" with
MIME type image/png produces a storage path whose filename component (the
part after the taskId segment) still contains a ".." sequence, because '.'
is inside the sanitizer's allowed character class; the claim asserts the
component contains no ".." sequence. -/
theorem sanitized_path_contains_dotdot :
    ((handleFileUpload ("t1") ("u1") ⟨"../../etc/passwd.png", "image/png", 5⟩ ("tok")
        true true true ⟨[], [], 0, 0⟩).1.catalog.map (fun r => r.file_path))
      = ["t1/tok-.._.._etc_passwd.png"]
    ∧ hasDotDot ("tok-.._.._etc_passwd.png").data = true := by
  decide

/-- C3 amended: uploading "../../etc/passwd.png" with MIME image/png
produces the storage path {taskId}/{randomToken}-{sanitizedFileName}, and
for every random token free of '/', the filename component after the taskId
segment contains no '/' character (a ".." sequence may remain, since '.' is
an allowed character, but with no '/' it cannot traverse directories). -/
theorem sanitized_path_no_slash (uuid : String) (huuid : ¬ ('/' ∈ uuid.data)) :
    ((handleFileUpload ("t1") ("u1") ⟨"../../etc/passwd.png", "image/png", 5⟩ uuid
        true true true ⟨[], [], 0, 0⟩).1.catalog.map (fun r => r.file_path))
      = [("t1") ++ "/" ++ (uuid ++ "-" ++ sanitizeFilename ("../../etc/passwd.png"))]
    ∧ ¬ ('/' ∈ (uuid ++ "-" ++ sanitizeFilename ("../../etc/passwd.png")).data) := by
  constructor
  · rw [upload_into_empty ("t1") ("u1") ⟨"../../etc/passwd.png", "image/png", 5⟩ uuid
      (by decide) (by decide)]
    simp [String.append_assoc]
  · intro hmem
    rw [String.data_append, String.data_append] at hmem
    rcases List.mem_append.mp hmem with hmem | hmem
    · rcases List.mem_append.mp hmem with hmem | hmem
      · exact huuid hmem
      · simp at hmem
    · have := sanitize_chars_safe ("../../etc/passwd.png") _ hmem
      simp [isSafeChar] at this

/-- Witness for the amended C3 with the concrete token "tok". -/
theorem sanitized_path_no_slash_witness :
    ((handleFileUpload ("t1") ("u1") ⟨"../../etc/passwd.png", "image/png", 5⟩ ("tok")
        true true true ⟨[], [], 0, 0⟩).1.catalog.map (fun r => r.file_path))
      = [("t1") ++ "/" ++ (("tok") ++ "-" ++ sanitizeFilename ("../../etc/passwd.png"))]
    ∧ ¬ ('/' ∈ (("tok") ++ "-" ++ sanitizeFilename ("../../etc/passwd.png")).data) :=
  sanitized_path_no_slash ("tok") (by decide)

/-! ### C10: upload into the degraded zero-latest state -/

/-- C10: when records of the pair exist but none is latest, the upload does
not find an existing file (existence is detected from the fetched latest
records only), so it inserts a new record with version 1, leaves every
existing record of the pair untouched, and the count of version-1 records
of the pair grows by one — a duplicate version number whenever the pair
already had a version-1 record. -/
theorem zero_latest_upload_version_one (taskId uploaderId : String)
    (file : UploadFile) (uuid : String) (s : AppState)
    (hmime : (ALLOWED_FILE_TYPES.contains file.mime) = true)
    (hsize : ¬ MAX_FILE_SIZE < file.size)
    (hpos : 0 < pairCount taskId file.name s.catalog)
    (hzero : latestCount taskId file.name s.catalog = 0) :
    (handleFileUpload taskId uploaderId file uuid true true true s).2
      = UploadResult.uploaded 1
    ∧ (handleFileUpload taskId uploaderId file uuid true true true s).1.catalog
        = s.catalog ++
          [{ id := s.nextId, task_id := taskId, file_name := file.name,
             file_path := taskId ++ "/" ++ uuid ++ "-" ++ sanitizeFilename file.name,
             file_type := file.mime, file_size := file.size, version := 1,
             is_latest := true, uploaded_by := some uploaderId,
             created_at := s.now }]
    ∧ (handleFileUpload taskId uploaderId file uuid true true true s).1.catalog.countP
          (fun a => inPair taskId file.name a && (a.version == 1))
        = s.catalog.countP (fun a => inPair taskId file.name a && (a.version == 1))
          + 1 := by
  have hmime' : ¬((ALLOWED_FILE_TYPES.contains file.mime) = false) := by
    rw [hmime]
    simp
  have hex : ¬(((fetchAttachments taskId s.catalog).any
      (fun a => a.file_name == file.name)) = true) := by
    intro hq
    have := (existing_iff_latestCount_pos taskId file.name s.catalog).mp hq
    rw [hzero] at this
    exact absurd this (by simp)
  unfold handleFileUpload
  rw [if_neg hmime', if_neg hsize]
  simp only [if_neg hex, if_neg (by simp : ¬((true : Bool) = false))]
  refine ⟨by trivial, by trivial, ?_⟩
  rw [List.countP_append]
  simp [List.countP_cons, inPair]

/-- Witness for C10: the pair has one non-latest version-1 record; the
upload inserts a second version-1 record without touching it. -/
theorem zero_latest_upload_version_one_witness :
    (handleFileUpload ("t1") ("u1") ⟨"a.txt", "text/plain", 3⟩ ("tok") true true true
        ⟨[⟨0, "t1", "a.txt", "t1/x-a.txt", "text/plain", 3, 1, false, some ("u1"), 0⟩],
         ["t1/x-a.txt"], 1, 1⟩).2 = UploadResult.uploaded 1
    ∧ (handleFileUpload ("t1") ("u1") ⟨"a.txt", "text/plain", 3⟩ ("tok") true true true
        ⟨[⟨0, "t1", "a.txt", "t1/x-a.txt", "text/plain", 3, 1, false, some ("u1"), 0⟩],
         ["t1/x-a.txt"], 1, 1⟩).1.catalog
        = [⟨0, "t1", "a.txt", "t1/x-a.txt", "text/plain", 3, 1, false, some ("u1"), 0⟩]
          ++ [{ id := 1, task_id := "t1", file_name := "a.txt",
                file_path := ("t1") ++ "/" ++ ("tok") ++ "-" ++ sanitizeFilename ("a.txt"),
                file_type := "text/plain", file_size := 3, version := 1,
                is_latest := true, uploaded_by := some ("u1"), created_at := 1 }]
    ∧ (handleFileUpload ("t1") ("u1") ⟨"a.txt", "text/plain", 3⟩ ("tok") true true true
        ⟨[⟨0, "t1", "a.txt", "t1/x-a.txt", "text/plain", 3, 1, false, some ("u1"), 0⟩],
         ["t1/x-a.txt"], 1, 1⟩).1.catalog.countP
          (fun a => inPair ("t1") ("a.txt") a && (a.version == 1))
        = ([⟨0, "t1", "a.txt", "t1/x-a.txt", "text/plain", 3, 1, false, some ("u1"), 0⟩]
            : List FileAttachment).countP
            (fun a => inPair ("t1") ("a.txt") a && (a.version == 1)) + 1 :=
  zero_latest_upload_version_one ("t1") ("u1") ⟨"a.txt", "text/plain", 3⟩ ("tok")
    ⟨[⟨0, "t1", "a.txt", "t1/x-a.txt", "text/plain", 3, 1, false, some ("u1"), 0⟩],
     ["t1/x-a.txt"], 1, 1⟩ (by decide) (by decide) (by decide) (by decide)

/-! ### C5: delete of the latest record promotes the highest remaining -/

/-- C5: For every Delete of a record with isLatest = true (ids distinct, at
most one latest in the pair beforehand): if records of the pair remain
after the catalog delete, the version history is nonempty, its head is a
remaining record of maximal version, exactly that record is promoted, and
the pair ends with exactly one latest record; if no records remain, no
promotion occurs and the pair has no records. -/
theorem delete_latest_promotes_highest (r : FileAttachment) (s : AppState)
    (hnd : (s.catalog.map FileAttachment.id).Nodup)
    (hr : r ∈ s.catalog) (hlat : r.is_latest = true)
    (hone : latestCount r.task_id r.file_name s.catalog ≤ 1) :
    (pairRecords r.task_id r.file_name (deleteById r.id s.catalog) = [] →
      (handleDelete r true true true s).1.catalog = deleteById r.id s.catalog
      ∧ pairRecords r.task_id r.file_name
          ((handleDelete r true true true s).1.catalog) = [])
    ∧ (pairRecords r.task_id r.file_name (deleteById r.id s.catalog) ≠ [] →
      ∃ v vs, getVersionHistory r.task_id r.file_name (deleteById r.id s.catalog)
          = v :: vs
        ∧ v ∈ pairRecords r.task_id r.file_name (deleteById r.id s.catalog)
        ∧ (∀ x ∈ pairRecords r.task_id r.file_name (deleteById r.id s.catalog),
            x.version ≤ v.version)
        ∧ (handleDelete r true true true s).1.catalog
            = promoteById v.id (deleteById r.id s.catalog)
        ∧ latestCount r.task_id r.file_name
            ((handleDelete r true true true s).1.catalog) = 1
        ∧ { v with is_latest := true } ∈ (handleDelete r true true true s).1.catalog) := by
  have hzero : latestCount r.task_id r.file_name (deleteById r.id s.catalog) = 0 := by
    have h2 := (delete_pair_counts hnd hr).2
    rw [if_pos hlat] at h2
    omega
  constructor
  · intro hp
    have hgv : getVersionHistory r.task_id r.file_name (deleteById r.id s.catalog) = [] :=
      getVersionHistory_eq_nil.mpr hp
    rw [handleDelete_ok_catalog, if_pos hlat, hgv]
    exact ⟨rfl, hp⟩
  · intro hp
    cases hgv : getVersionHistory r.task_id r.file_name (deleteById r.id s.catalog) with
    | nil => exact absurd (getVersionHistory_eq_nil.mp hgv) hp
    | cons v vs =>
        have hv := getVersionHistory_head hgv
        rcases mem_pairRecords.mp hv.1 with ⟨hv1, hv2, hv3⟩
        have hnd1 := nodup_deleteById r.id hnd
        have hvpair : inPair r.task_id r.file_name v = true := inPair_iff.mpr ⟨hv2, hv3⟩
        have hvlat : v.is_latest = false := by
          have hz := List.countP_eq_zero.mp hzero v hv1
          rw [hvpair] at hz
          simpa using hz
        have hposteq : (handleDelete r true true true s).1.catalog
            = promoteById v.id (deleteById r.id s.catalog) := by
          rw [handleDelete_ok_catalog, if_pos hlat, hgv]
        refine ⟨v, vs, rfl, hv.1, hv.2, hposteq, ?_, ?_⟩
        · rw [hposteq]
          have hE := latestCount_promoteById hnd1 hv1 r.task_id r.file_name
          rw [hvpair, hvlat, hzero] at hE
          simpa using hE
        · rw [hposteq]
          unfold promoteById
          exact List.mem_map.mpr ⟨v, hv1, by simp⟩

/-- Witness for C5: the pair holds versions 1 (not latest) and 2 (latest);
deleting version 2 promotes the remaining version 1. -/
theorem delete_latest_promotes_highest_witness :
    ∃ v vs, getVersionHistory ("t1") ("a.txt")
        (deleteById 1
          [⟨0, "t1", "a.txt", "p0", "text/plain", 3, 1, false, some ("u1"), 0⟩,
           ⟨1, "t1", "a.txt", "p1", "text/plain", 3, 2, true, some ("u1"), 1⟩])
        = v :: vs
      ∧ v ∈ pairRecords ("t1") ("a.txt")
          (deleteById 1
            [⟨0, "t1", "a.txt", "p0", "text/plain", 3, 1, false, some ("u1"), 0⟩,
             ⟨1, "t1", "a.txt", "p1", "text/plain", 3, 2, true, some ("u1"), 1⟩])
      ∧ (∀ x ∈ pairRecords ("t1") ("a.txt")
            (deleteById 1
              [⟨0, "t1", "a.txt", "p0", "text/plain", 3, 1, false, some ("u1"), 0⟩,
               ⟨1, "t1", "a.txt", "p1", "text/plain", 3, 2, true, some ("u1"), 1⟩]),
          x.version ≤ v.version)
      ∧ (handleDelete ⟨1, "t1", "a.txt", "p1", "text/plain", 3, 2, true, some ("u1"), 1⟩
            true true true
            ⟨[⟨0, "t1", "a.txt", "p0", "text/plain", 3, 1, false, some ("u1"), 0⟩,
              ⟨1, "t1", "a.txt", "p1", "text/plain", 3, 2, true, some ("u1"), 1⟩],
             ["p0", "p1"], 2, 2⟩).1.catalog
          = promoteById v.id
              (deleteById 1
                [⟨0, "t1", "a.txt", "p0", "text/plain", 3, 1, false, some ("u1"), 0⟩,
                 ⟨1, "t1", "a.txt", "p1", "text/plain", 3, 2, true, some ("u1"), 1⟩])
      ∧ latestCount ("t1") ("a.txt")
          ((handleDelete ⟨1, "t1", "a.txt", "p1", "text/plain", 3, 2, true, some ("u1"), 1⟩
              true true true
              ⟨[⟨0, "t1", "a.txt", "p0", "text/plain", 3, 1, false, some ("u1"), 0⟩,
                ⟨1, "t1", "a.txt", "p1", "text/plain", 3, 2, true, some ("u1"), 1⟩],
               ["p0", "p1"], 2, 2⟩).1.catalog) = 1
      ∧ { v with is_latest := true }
          ∈ (handleDelete ⟨1, "t1", "a.txt", "p1", "text/plain", 3, 2, true, some ("u1"), 1⟩
              true true true
              ⟨[⟨0, "t1", "a.txt", "p0", "text/plain", 3, 1, false, some ("u1"), 0⟩,
                ⟨1, "t1", "a.txt", "p1", "text/plain", 3, 2, true, some ("u1"), 1⟩],
               ["p0", "p1"], 2, 2⟩).1.catalog :=
  (delete_latest_promotes_highest
    ⟨1, "t1", "a.txt", "p1", "text/plain", 3, 2, true, some ("u1"), 1⟩
    ⟨[⟨0, "t1", "a.txt", "p0", "text/plain", 3, 1, false, some ("u1"), 0⟩,
      ⟨1, "t1", "a.txt", "p1", "text/plain", 3, 2, true, some ("u1"), 1⟩],
     ["p0", "p1"], 2, 2⟩
    (by decide) (by decide) (by decide) (by decide)).2 (by decide)

/-! ### C6: restore promotes a version or is a no-op -/

theorem set_latest_eta (y : FileAttachment) (b : Bool) (h : y.is_latest = b) :
    ({ y with is_latest := b }) = y := by
  cases y
  simp at h
  rw [h]

/-- C6: Restoring an existing record r of the pair (ids distinct, at most
one latest beforehand): the catalog becomes the pointwise update that
demotes every record of the pair except the one with r's id, which is
promoted; versions and record count are unchanged; if r was already latest
the operation is a no-op (the catalog is unchanged); if r was not latest,
r is promoted, every previously latest record of the pair is demoted, and
the pair ends with exactly one latest record. -/
theorem restore_noop_or_promote (taskId : String) (r : FileAttachment) (s : AppState)
    (hnd : (s.catalog.map FileAttachment.id).Nodup)
    (hr : r ∈ s.catalog) (ht : r.task_id = taskId)
    (hone : latestCount taskId r.file_name s.catalog ≤ 1) :
    ((onRestore taskId r true true s).catalog
       = s.catalog.map (fun x => if inPair taskId r.file_name x
           then { x with is_latest := (x.id == r.id) } else x))
    ∧ ((onRestore taskId r true true s).catalog.map (fun a => a.version)
        = s.catalog.map (fun a => a.version))
    ∧ (onRestore taskId r true true s).catalog.length = s.catalog.length
    ∧ (r.is_latest = true → (onRestore taskId r true true s).catalog = s.catalog)
    ∧ (r.is_latest = false →
        { r with is_latest := true } ∈ (onRestore taskId r true true s).catalog
        ∧ (∀ x ∈ s.catalog, inPair taskId r.file_name x = true →
            x.is_latest = true →
            { x with is_latest := false } ∈ (onRestore taskId r true true s).catalog)
        ∧ latestCount taskId r.file_name (onRestore taskId r true true s).catalog = 1) := by
  have hmap := onRestore_catalog_map hnd hr ht
  have hpr : inPair taskId r.file_name r = true := inPair_iff.mpr ⟨ht, rfl⟩
  refine ⟨hmap, ?_, ?_, ?_, ?_⟩
  · rw [hmap, List.map_map]
    apply List.map_congr_left
    intro x _
    by_cases hp : inPair taskId r.file_name x = true
    · simp [Function.comp, hp]
    · simp only [Bool.not_eq_true] at hp
      simp [Function.comp, hp]
  · rw [hmap, List.length_map]
  · intro hlat
    rw [hmap]
    have hid : ∀ x ∈ s.catalog,
        (fun x => if inPair taskId r.file_name x
          then { x with is_latest := (x.id == r.id) } else x) x = id x := by
      intro x hx
      by_cases hp : inPair taskId r.file_name x = true
      · simp only [if_pos hp]
        by_cases hq : (x.id == r.id) = true
        · have hxr : x = r := List.inj_on_of_nodup_map hnd hx hr (by simpa using hq)
          simp only [hq]
          rw [hxr]
          exact set_latest_eta r true hlat
        · simp only [Bool.not_eq_true] at hq
          have hxlat : x.is_latest = false := by
            cases hxl : x.is_latest
            · rfl
            · exfalso
              have hxr : x = r := eq_of_countP_le_one hone hx
                (by rw [hp, hxl]; rfl) hr (by rw [hpr, hlat]; rfl)
              rw [hxr] at hq
              simp at hq
          simp only [hq]
          exact set_latest_eta x false hxlat
      · simp only [if_neg hp]
        rfl
    rw [List.map_congr_left hid, List.map_id]
  · intro hlat
    refine ⟨?_, ?_, (restore_latestCounts hnd hr ht).1⟩
    · rw [hmap]
      refine List.mem_map.mpr ⟨r, hr, ?_⟩
      simp only [if_pos hpr]
      simp
    · intro x hx hp hxl
      have hq : (x.id == r.id) = false := by
        cases hq1 : x.id == r.id
        · rfl
        · exfalso
          have hxr : x = r := List.inj_on_of_nodup_map hnd hx hr (by simpa using hq1)
          rw [hxr] at hxl
          rw [hxl] at hlat
          cases hlat
      rw [hmap]
      refine List.mem_map.mpr ⟨x, hx, ?_⟩
      simp only [if_pos hp, hq]

/-- Witness for C6: restoring the non-latest version 1 record promotes it
and demotes the previously latest version 2 record. -/
theorem restore_noop_or_promote_witness :
    ({ (⟨0, "t1", "a.txt", "p0", "text/plain", 3, 1, false, some ("u1"), 0⟩
        : FileAttachment) with is_latest := true }
      ∈ (onRestore ("t1")
          ⟨0, "t1", "a.txt", "p0", "text/plain", 3, 1, false, some ("u1"), 0⟩
          true true
          ⟨[⟨0, "t1", "a.txt", "p0", "text/plain", 3, 1, false, some ("u1"), 0⟩,
            ⟨1, "t1", "a.txt", "p1", "text/plain", 3, 2, true, some ("u1"), 1⟩],
           ["p0", "p1"], 2, 2⟩).catalog)
    ∧ latestCount ("t1") ("a.txt")
        (onRestore ("t1")
          ⟨0, "t1", "a.txt", "p0", "text/plain", 3, 1, false, some ("u1"), 0⟩
          true true
          ⟨[⟨0, "t1", "a.txt", "p0", "text/plain", 3, 1, false, some ("u1"), 0⟩,
            ⟨1, "t1", "a.txt", "p1", "text/plain", 3, 2, true, some ("u1"), 1⟩],
           ["p0", "p1"], 2, 2⟩).catalog = 1 := by
  have h := restore_noop_or_promote ("t1")
    ⟨0, "t1", "a.txt", "p0", "text/plain", 3, 1, false, some ("u1"), 0⟩
    ⟨[⟨0, "t1", "a.txt", "p0", "text/plain", 3, 1, false, some ("u1"), 0⟩,
      ⟨1, "t1", "a.txt", "p1", "text/plain", 3, 2, true, some ("u1"), 1⟩],
     ["p0", "p1"], 2, 2⟩
    (by decide) (by decide) (by decide) (by decide)
  rcases h.2.2.2.2 (by decide) with ⟨h1, _, h3⟩
  exact ⟨h1, h3⟩

/-! ### C7: demote is issued before promote; never two latest mid-operation -/

theorem latestCount_singleton_le_one (t fn : String) (x : FileAttachment) :
    latestCount t fn [x] ≤ 1 := by
  unfold latestCount
  simp [List.countP_cons]
  split <;> simp

theorem upload_result_ok (taskId uploaderId : String) (file : UploadFile)
    (uuid : String) (storeOk insertOk : Bool) (s : AppState)
    (h1 : ¬(ALLOWED_FILE_TYPES.contains file.mime) = false)
    (h2 : ¬ MAX_FILE_SIZE < file.size)
    (h3 : ¬ storeOk = false) (h4 : ¬ insertOk = false) :
    ∃ v, (handleFileUpload taskId uploaderId file uuid true storeOk insertOk s).2
      = UploadResult.uploaded v := by
  unfold handleFileUpload
  rw [if_neg h1, if_neg h2]
  simp only [if_neg h3, if_neg h4]
  exact ⟨_, rfl⟩

/-- C7 counterexample: the claim says a pair can never reach two or more
latest records at any intermediate point of an operation.  But the source
ignores the demote update's error and continues: in a Restore execution
where the issued demote request fails and the promote request succeeds,
against a pair holding a non-latest version 1 and a latest version 2, the
final state of the operation's own write trace has TWO latest records. -/
theorem failed_demote_two_latest_reachable :
    latestCount ("t1") ("a.txt")
      ((onRestore ("t1")
          ⟨0, "t1", "a.txt", "p0", "text/plain", 3, 1, false, some ("u1"), 0⟩
          false true
          ⟨[⟨0, "t1", "a.txt", "p0", "text/plain", 3, 1, false, some ("u1"), 0⟩,
            ⟨1, "t1", "a.txt", "p1", "text/plain", 3, 2, true, some ("u1"), 1⟩],
           ["p0", "p1"], 2, 2⟩).catalog) = 2
    ∧ (onRestore ("t1")
          ⟨0, "t1", "a.txt", "p0", "text/plain", 3, 1, false, some ("u1"), 0⟩
          false true
          ⟨[⟨0, "t1", "a.txt", "p0", "text/plain", 3, 1, false, some ("u1"), 0⟩,
            ⟨1, "t1", "a.txt", "p1", "text/plain", 3, 2, true, some ("u1"), 1⟩],
           ["p0", "p1"], 2, 2⟩).catalog
        ∈ restoreCatalogSteps ("t1")
            ⟨0, "t1", "a.txt", "p0", "text/plain", 3, 1, false, some ("u1"), 0⟩
            false true
            ⟨[⟨0, "t1", "a.txt", "p0", "text/plain", 3, 1, false, some ("u1"), 0⟩,
              ⟨1, "t1", "a.txt", "p1", "text/plain", 3, 2, true, some ("u1"), 1⟩],
             ["p0", "p1"], 2, 2⟩
    ∧ latestCount ("t1") ("a.txt")
        [⟨0, "t1", "a.txt", "p0", "text/plain", 3, 1, false, some ("u1"), 0⟩,
         ⟨1, "t1", "a.txt", "p1", "text/plain", 3, 2, true, some ("u1"), 1⟩] = 1 := by
  decide

/-- C7 amended: In every Upload and Restore, the catalog-write trace runs
the demote update strictly before the write of the new latest record.  In
executions where every issued catalog update succeeds, given a catalog with
at most one latest record per pair (and distinct ids), every catalog state
in the trace of either operation — including the states after a crash
between the two steps — has at most one latest record per pair; the
intermediate state right after the demote has zero latest records for the
pair, so zero is reachable while two or more never is.  (Without that
restriction the bound fails: the demote request's error is ignored, and a
failed demote followed by a successful promote reaches two latest
records.) -/
theorem demote_issued_before_promote (taskId uploaderId : String)
    (file : UploadFile) (uuid : String) (storeOk insertOk : Bool)
    (r : FileAttachment) (s : AppState)
    (hall : ∀ t fn : String, latestCount t fn s.catalog ≤ 1)
    (hnd : (s.catalog.map FileAttachment.id).Nodup)
    (hr : r ∈ s.catalog) (ht : r.task_id = taskId) :
    (∀ c ∈ uploadCatalogSteps taskId uploaderId file uuid true storeOk insertOk s,
        ∀ t fn : String, latestCount t fn c ≤ 1)
    ∧ (∀ c ∈ restoreCatalogSteps taskId r true true s,
        ∀ t fn : String, latestCount t fn c ≤ 1)
    ∧ latestCount taskId r.file_name (demotePair taskId r.file_name s.catalog) = 0
    ∧ demotePair taskId r.file_name s.catalog ∈ restoreCatalogSteps taskId r true true s
    ∧ ((ALLOWED_FILE_TYPES.contains file.mime) = true →
        ¬ MAX_FILE_SIZE < file.size →
        ((fetchAttachments taskId s.catalog).any
          (fun a => a.file_name == file.name)) = true →
        demotePair taskId file.name s.catalog
          ∈ uploadCatalogSteps taskId uploaderId file uuid true storeOk insertOk s
        ∧ latestCount taskId file.name (demotePair taskId file.name s.catalog) = 0) := by
  have hdem : ∀ t0 fn0 t fn : String,
      latestCount t fn (demotePair t0 fn0 s.catalog) ≤ 1 := by
    intro t0 fn0 t fn
    by_cases hq : t = t0 ∧ fn = fn0
    · rw [hq.1, hq.2, latestCount_demotePair_self]
      simp
    · rw [latestCount_demotePair_ne (not_and_or.mp hq)]
      exact hall t fn
  have hfinal : ∀ h1 : ¬(ALLOWED_FILE_TYPES.contains file.mime) = false,
      ∀ h2 : ¬ MAX_FILE_SIZE < file.size, ∀ h3 : ¬ storeOk = false,
      ∀ h4 : ¬ insertOk = false, ∀ t fn : String,
      latestCount t fn
        (handleFileUpload taskId uploaderId file uuid true storeOk insertOk s).1.catalog ≤ 1 := by
    intro h1 h2 h3 h4 t fn
    rcases upload_result_ok taskId uploaderId file uuid storeOk insertOk s h1 h2 h3 h4
      with ⟨v, hv⟩
    rcases upload_success_latestCounts hv with ⟨hp, ho⟩
    by_cases hq : t = taskId ∧ fn = file.name
    · rw [hq.1, hq.2, hp]
    · rw [(ho t fn (not_and_or.mp hq)).1]
      exact hall t fn
  refine ⟨?_, ?_, latestCount_demotePair_self taskId r.file_name s.catalog,
    by simp [restoreCatalogSteps], ?_⟩
  · intro c hc
    unfold uploadCatalogSteps at hc
    by_cases h1 : (ALLOWED_FILE_TYPES.contains file.mime) = false
    · rw [if_pos h1] at hc
      simp only [List.mem_singleton] at hc
      rw [hc]
      exact hall
    rw [if_neg h1] at hc
    by_cases h2 : MAX_FILE_SIZE < file.size
    · rw [if_pos h2] at hc
      simp only [List.mem_singleton] at hc
      rw [hc]
      exact hall
    rw [if_neg h2] at hc
    by_cases hex : ((fetchAttachments taskId s.catalog).any
        (fun a => a.file_name == file.name)) = true
    · simp only [if_pos hex] at hc
      by_cases h3 : storeOk = false
      · simp only [if_pos h3] at hc
        rcases (by simpa using hc :
            c = s.catalog ∨ c = demotePair taskId file.name s.catalog) with hc1 | hc1
        · rw [hc1]
          exact hall
        · rw [hc1]
          exact hdem taskId file.name
      simp only [if_neg h3] at hc
      by_cases h4 : insertOk = false
      · simp only [if_pos h4] at hc
        rcases (by simpa using hc :
            c = s.catalog ∨ c = demotePair taskId file.name s.catalog) with hc1 | hc1
        · rw [hc1]
          exact hall
        · rw [hc1]
          exact hdem taskId file.name
      · simp only [if_neg h4] at hc
        rcases (by simpa using hc :
            c = s.catalog ∨ c = demotePair taskId file.name s.catalog
            ∨ c = (handleFileUpload taskId uploaderId file uuid true storeOk insertOk s).1.catalog)
          with hc1 | hc1 | hc1
        · rw [hc1]
          exact hall
        · rw [hc1]
          exact hdem taskId file.name
        · rw [hc1]
          exact hfinal h1 h2 h3 h4
    · simp only [if_neg hex] at hc
      by_cases h3 : storeOk = false
      · simp only [if_pos h3] at hc
        rcases (by simpa using hc : c = s.catalog) with hc1
        rw [hc1]
        exact hall
      simp only [if_neg h3] at hc
      by_cases h4 : insertOk = false
      · simp only [if_pos h4] at hc
        rcases (by simpa using hc : c = s.catalog) with hc1
        rw [hc1]
        exact hall
      · simp only [if_neg h4] at hc
        rcases (by simpa using hc :
            c = s.catalog
            ∨ c = (handleFileUpload taskId uploaderId file uuid true storeOk insertOk s).1.catalog)
          with hc1 | hc1
        · rw [hc1]
          exact hall
        · rw [hc1]
          exact hfinal h1 h2 h3 h4
  · intro c hc
    rcases (by simpa [restoreCatalogSteps] using hc :
        c = s.catalog ∨ c = demotePair taskId r.file_name s.catalog
        ∨ c = promoteById r.id (demotePair taskId r.file_name s.catalog))
      with hc1 | hc1 | hc1
    · rw [hc1]
      exact hall
    · rw [hc1]
      exact hdem taskId r.file_name
    · rw [hc1]
      intro t fn
      rcases restore_latestCounts hnd hr ht with ⟨hp, ho, _⟩
      by_cases hq : t = taskId ∧ fn = r.file_name
      · rw [hq.1, hq.2]
        exact le_of_eq hp
      · exact (le_of_eq (ho t fn (not_and_or.mp hq))).trans (hall t fn)
  · intro hmime hsize hex
    have hmime' : ¬((ALLOWED_FILE_TYPES.contains file.mime) = false) := by
      rw [hmime]
      simp
    refine ⟨?_, latestCount_demotePair_self taskId file.name s.catalog⟩
    unfold uploadCatalogSteps
    rw [if_neg hmime', if_neg hsize]
    simp only [if_pos hex]
    by_cases h3 : storeOk = false
    · simp only [if_pos h3]
      simp
    simp only [if_neg h3]
    by_cases h4 : insertOk = false
    · simp only [if_pos h4]
      simp
    · simp only [if_neg h4]
      simp

/-- Witness for C7: for a pair with one latest record, the demoted
intermediate catalog state of the restore trace has zero latest records and
appears in the trace. -/
theorem demote_issued_before_promote_witness :
    latestCount ("t1") ("a.txt")
      (demotePair ("t1") ("a.txt")
        [⟨0, "t1", "a.txt", "p0", "text/plain", 3, 1, true, some ("u1"), 0⟩]) = 0
    ∧ demotePair ("t1") ("a.txt")
        [⟨0, "t1", "a.txt", "p0", "text/plain", 3, 1, true, some ("u1"), 0⟩]
      ∈ restoreCatalogSteps ("t1")
          ⟨0, "t1", "a.txt", "p0", "text/plain", 3, 1, true, some ("u1"), 0⟩
          true true
          ⟨[⟨0, "t1", "a.txt", "p0", "text/plain", 3, 1, true, some ("u1"), 0⟩],
           ["p0"], 1, 1⟩ := by
  have h := demote_issued_before_promote ("t1") ("u1") ⟨"a.txt", "text/plain", 3⟩
    ("tok") true true
    ⟨0, "t1", "a.txt", "p0", "text/plain", 3, 1, true, some ("u1"), 0⟩
    ⟨[⟨0, "t1", "a.txt", "p0", "text/plain", 3, 1, true, some ("u1"), 0⟩],
     ["p0"], 1, 1⟩
    (fun t fn => latestCount_singleton_le_one t fn
      ⟨0, "t1", "a.txt", "p0", "text/plain", 3, 1, true, some ("u1"), 0⟩)
    (by decide) (by decide) (by decide)
  exact ⟨h.2.2.1, h.2.2.2.1⟩

/-! ### C2: N uploads of the same name yield versions 1..N -/

theorem latestCount_le_pairCount (t fn : String) (cat : List FileAttachment) :
    latestCount t fn cat ≤ pairCount t fn cat := by
  unfold latestCount pairCount
  induction cat with
  | nil => simp
  | cons a l ih =>
      simp only [List.countP_cons]
      cases hp : inPair t fn a <;> cases hl : a.is_latest <;> simp [hp, hl] <;> omega

theorem upload_ok_new_pairRecords (taskId uploaderId : String) (file : UploadFile)
    (uuid : String) (s : AppState)
    (hmime : (ALLOWED_FILE_TYPES.contains file.mime) = true)
    (hsize : ¬ MAX_FILE_SIZE < file.size)
    (hex : ¬((fetchAttachments taskId s.catalog).any
        (fun a => a.file_name == file.name)) = true) :
    pairRecords taskId file.name
        (handleFileUpload taskId uploaderId file uuid true true true s).1.catalog
      = pairRecords taskId file.name s.catalog
        ++ [{ id := s.nextId, task_id := taskId, file_name := file.name,
              file_path := taskId ++ "/" ++ uuid ++ "-" ++ sanitizeFilename file.name,
              file_type := file.mime, file_size := file.size, version := 1,
              is_latest := true, uploaded_by := some uploaderId,
              created_at := s.now }] := by
  have hmime' : ¬((ALLOWED_FILE_TYPES.contains file.mime) = false) := by
    rw [hmime]
    simp
  unfold handleFileUpload
  rw [if_neg hmime', if_neg hsize]
  simp only [if_neg hex, if_neg (by simp : ¬((true : Bool) = false))]
  rw [pairRecords_append]
  simp [pairRecords, inPair]

theorem upload_ok_existing_pairRecords (taskId uploaderId : String) (file : UploadFile)
    (uuid : String) (s : AppState)
    (hmime : (ALLOWED_FILE_TYPES.contains file.mime) = true)
    (hsize : ¬ MAX_FILE_SIZE < file.size)
    (hex : ((fetchAttachments taskId s.catalog).any
        (fun a => a.file_name == file.name)) = true) :
    pairRecords taskId file.name
        (handleFileUpload taskId uploaderId file uuid true true true s).1.catalog
      = (pairRecords taskId file.name s.catalog).map
          (fun a => { a with is_latest := false })
        ++ [{ id := s.nextId, task_id := taskId, file_name := file.name,
              file_path := taskId ++ "/" ++ uuid ++ "-" ++ sanitizeFilename file.name,
              file_type := file.mime, file_size := file.size,
              version := (match getVersionHistory taskId file.name s.catalog with
                          | [] => 1
                          | v :: _ => v.version + 1),
              is_latest := true, uploaded_by := some uploaderId,
              created_at := s.now }] := by
  have hmime' : ¬((ALLOWED_FILE_TYPES.contains file.mime) = false) := by
    rw [hmime]
    simp
  unfold handleFileUpload
  rw [if_neg hmime', if_neg hsize]
  simp only [if_pos hex, if_true, if_neg (by simp : ¬((true : Bool) = false))]
  rw [pairRecords_append, pairRecords_demotePair_self]
  simp [pairRecords, inPair]

/-- C2: starting from a pair with no records, uploading the same valid file
N times in sequence (each upload fully successful) yields pair records with
versions 1, 2, ..., N in upload order, and a record is latest exactly when
its version is N. -/
theorem upload_n_times_versions (taskId uploaderId : String) (file : UploadFile)
    (uuids : Nat → String) (s : AppState)
    (hmime : (ALLOWED_FILE_TYPES.contains file.mime) = true)
    (hsize : ¬ MAX_FILE_SIZE < file.size)
    (hempty : pairRecords taskId file.name s.catalog = [])
    (N : Nat) :
    ((pairRecords taskId file.name
        (uploadN taskId uploaderId file uuids N s).catalog).map (fun r => r.version))
      = List.range' 1 N
    ∧ (∀ r ∈ pairRecords taskId file.name
          (uploadN taskId uploaderId file uuids N s).catalog,
        (r.is_latest = true ↔ r.version = N)) := by
  induction N with
  | zero =>
      constructor
      · simp only [uploadN]
        rw [hempty]
        rfl
      · intro r hr
        simp only [uploadN] at hr
        rw [hempty] at hr
        cases hr
  | succ n ih =>
      rcases ih with ⟨hver, hlat⟩
      by_cases hpnil : pairRecords taskId file.name
          (uploadN taskId uploaderId file uuids n s).catalog = []
      · -- no record yet: this must be the first upload
        have hn0 : n = 0 := by
          have hlen := congrArg List.length hver
          rw [hpnil] at hlen
          simpa using hlen.symm
        have hex : ¬((fetchAttachments taskId
            (uploadN taskId uploaderId file uuids n s).catalog).any
            (fun a => a.file_name == file.name)) = true := by
          intro hq
          have hpos := (existing_iff_latestCount_pos taskId file.name _).mp hq
          have hle := latestCount_le_pairCount taskId file.name
            (uploadN taskId uploaderId file uuids n s).catalog
          rw [pairCount_eq_length, hpnil] at hle
          simp at hle
          omega
        have heq := upload_ok_new_pairRecords taskId uploaderId file (uuids n)
          (uploadN taskId uploaderId file uuids n s) hmime hsize hex
        constructor
        · simp only [uploadN]
          rw [heq, hpnil, hn0]
          rfl
        · intro r hr
          simp only [uploadN] at hr
          rw [heq, hpnil] at hr
          simp only [List.nil_append, List.mem_singleton] at hr
          rw [hr, hn0]
          simp
      · -- at least one upload already happened: the latest has version n
        have hn1 : 0 < n := by
          have hlen := congrArg List.length hver
          simp only [List.length_map, List.length_range'] at hlen
          rcases Nat.eq_zero_or_pos n with hn | hn
          · exact absurd (List.length_eq_zero.mp (hlen.trans hn)) hpnil
          · exact hn
        have hnmem : (n : Nat) ∈ List.range' 1 n :=
          List.mem_range'_1.mpr ⟨hn1, by omega⟩
        rw [← hver] at hnmem
        rcases List.mem_map.mp hnmem with ⟨x, hx, hxv⟩
        have hxlat : x.is_latest = true := (hlat x hx).mpr hxv
        rcases mem_pairRecords.mp hx with ⟨hxc, hxt, hxf⟩
        have hex : ((fetchAttachments taskId
            (uploadN taskId uploaderId file uuids n s).catalog).any
            (fun a => a.file_name == file.name)) = true := by
          apply (existing_iff_latestCount_pos taskId file.name _).mpr
          apply List.countP_pos_iff.mpr
          refine ⟨x, hxc, ?_⟩
          rw [inPair_iff.mpr ⟨hxt, hxf⟩, hxlat]
          rfl
        cases hgv : getVersionHistory taskId file.name
            (uploadN taskId uploaderId file uuids n s).catalog with
        | nil => exact absurd (getVersionHistory_eq_nil.mp hgv) hpnil
        | cons v vs =>
            have hv := getVersionHistory_head hgv
            have hvn : v.version = n := by
              have hle1 : v.version ≤ n := by
                have hm : v.version ∈ List.range' 1 n := by
                  rw [← hver]
                  exact List.mem_map.mpr ⟨v, hv.1, rfl⟩
                have := List.mem_range'_1.mp hm
                omega
              have hle2 : n ≤ v.version := by
                have := hv.2 x hx
                omega
              omega
            have heq := upload_ok_existing_pairRecords taskId uploaderId file (uuids n)
              (uploadN taskId uploaderId file uuids n s) hmime hsize hex
            simp only [hgv] at heq
            rw [hvn] at heq
            constructor
            · simp only [uploadN]
              rw [heq, List.map_append, List.map_map]
              have hcomp : ((fun r : FileAttachment => r.version)
                  ∘ (fun a : FileAttachment => { a with is_latest := false }))
                  = (fun r : FileAttachment => r.version) := by
                funext a
                rfl
              rw [hcomp, hver]
              have := @List.range'_concat 1 1 n
              rw [this]
              simp [Nat.add_comm]
            · intro r hr
              simp only [uploadN] at hr
              rw [heq] at hr
              rcases List.mem_append.mp hr with hr1 | hr1
              · rcases List.mem_map.mp hr1 with ⟨x0, hx0, hx0e⟩
                have hx0v : x0.version ∈ List.range' 1 n := by
                  rw [← hver]
                  exact List.mem_map.mpr ⟨x0, hx0, rfl⟩
                have hx0lt := (List.mem_range'_1.mp hx0v).2
                rw [← hx0e]
                constructor
                · intro habs
                  simp at habs
                · intro habs
                  simp only at habs
                  omega
              · rw [List.mem_singleton.mp hr1]
                simp

/-- Witness for C2 with N = 2 concrete uploads into an empty state. -/
theorem upload_n_times_versions_witness :
    ((pairRecords ("t1") ("a.txt")
        (uploadN ("t1") ("u1") ⟨"a.txt", "text/plain", 3⟩ (fun _ => "x") 2
          ⟨[], [], 0, 0⟩).catalog).map (fun r => r.version)) = List.range' 1 2 :=
  (upload_n_times_versions ("t1") ("u1") ⟨"a.txt", "text/plain", 3⟩ (fun _ => "x")
    ⟨[], [], 0, 0⟩ (by decide) (by decide) (by decide) 2).1
